import Mathlib

/-!
Verification of the environment-composition engine of the repository
(`reframe/core/environments.py`): the `Environment` load/unload/emit
protocol, `EnvironmentSnapshot`, and the `save_environment` scope guard.

The ambient process state is modelled as a pair of
* the ambient variable mapping (`os.environ`), a function `String → Option String`;
* the module-system state, the ordered list of loaded module names.

The external `ModuleBackend` collaborator is not part of the sources; its
operations are modelled from the capability contract of the spec (section 6).
`os.path.expandvars` is external as well and is kept abstract: every theorem
is parametric in an expansion function
`expand : (String → Option String) → String → String` giving the value of a
variable string expanded against an ambient variable mapping.
-/

/-- The ambient process state: variable mapping plus module-system state. -/
structure Ambient where
  environ : String → Option String
  mods : List String

/-- A request issued to the module backend: `load force name` or `unload name`. -/
inductive ModReq where
  | load : Bool → String → ModReq
  | unload : String → ModReq
deriving DecidableEq

namespace ModulesSystem

/-- Modelled from the spec: the ModuleBackend capability
`isLoaded(name) -> bool` (section 6), querying the module-system state. -/
def is_module_loaded (st : List String) (m : String) : Bool :=
  st.contains m

/-- Modelled from the spec: the ModuleBackend capability
`load(name, force) -> list of names force-unloaded due to conflict`
(section 6).  `conf m x = true` means that loading `m` conflicts with a
loaded `x` (conflicts may be asymmetric).  Loading an already-loaded module
is idempotent and reports no conflicts.  With `force` the conflicting
loaded modules are unloaded first and reported; without `force` a conflict
is a backend failure (section 7), modelled as leaving the state unchanged
and reporting `false` in the final component.
Returns (new state, conflicted list, success flag). -/
def load_module (conf : String → String → Bool) (force : Bool) (m : String)
    (st : List String) : List String × List String × Bool :=
  if st.contains m then (st, [], true)
  else
    let confl := st.filter (fun x => conf m x)
    if confl.isEmpty then (st ++ [m], [], true)
    else if force then (st.filter (fun x => !conf m x) ++ [m], confl, true)
    else (st, [], false)

/-- Modelled from the spec: the ModuleBackend capability
`unload(name) -> void` (section 6), removing the module from the loaded list. -/
def unload_module (st : List String) (m : String) : List String :=
  st.erase m

end ModulesSystem

/-- The Python `collections.OrderedDict` built from a list of key/value
pairs: a later duplicate key updates the stored value in place and keeps
the position of its first insertion. -/
def odict (l : List (String × String)) : List (String × String) :=
  l.foldl (fun acc kv =>
    if acc.any (fun p => p.1 = kv.1) then
      acc.map (fun p => if p.1 = kv.1 then (p.1, kv.2) else p)
    else acc ++ [kv]) []

/-- Embedding of `Environment` from `reframe/core/environments.py`: declared name,
modules and variables, plus the bookkeeping state mutated by
`load`/`unload` (`_loaded`, `_saved_variables`, `_conflicted`,
`_preloaded`, `_module_ops`).  In `module_ops` an operation is a pair
whose first component is `true` for a logged load (Python tag l) and
`false` for a logged unload (Python tag u). -/
structure Environment where
  name : String
  modules : List String
  vars : List (String × String)
  loaded : Bool
  saved_variables : String → Option String
  conflicted : List String
  preloaded : List String
  module_ops : List (Bool × String)

/-- Embedding of `Environment.__init__`: stores the name unvalidated (the class-level
`TypedField` validator is shadowed by the later read-only `name` property
and `__init__` writes `self._name` directly), copies the module list,
normalizes the variables through `collections.OrderedDict`, and starts
with empty bookkeeping state. -/
def Environment.make (name : String) (modules : List String)
    (vlist : List (String × String)) : Environment :=
  { name := name
    modules := modules
    vars := odict vlist
    loaded := false
    saved_variables := fun _ => none
    conflicted := []
    preloaded := []
    module_ops := [] }

/-- Accumulator for the module loop of `Environment.load`. -/
structure LoadMState where
  mods : List String
  preloaded : List String
  conflicted : List String
  ops : List (Bool × String)
  reqs : List ModReq

/-- One iteration of the module loop of `Environment.load`: record the
module as preloaded if the backend reports it already loaded, force-load
it, log the forced unloads and the load in `module_ops`, and accumulate
the conflicted list. -/
def load_mods_step (conf : String → String → Bool) (s : LoadMState)
    (m : String) : LoadMState :=
  let pre :=
    if ModulesSystem.is_module_loaded s.mods m then
      if s.preloaded.contains m then s.preloaded else s.preloaded ++ [m]
    else s.preloaded
  let r := ModulesSystem.load_module conf true m s.mods
  { mods := r.1
    preloaded := pre
    conflicted := s.conflicted ++ r.2.1
    ops := s.ops ++ r.2.1.map (fun c => (false, c)) ++ [(true, m)]
    reqs := s.reqs ++ [ModReq.load true m] }

/-- One iteration of the variable loop of `Environment.load`, acting on the
pair (saved variables, ambient variable mapping): if the key currently
exists ambient, save its prior value; then set the key to the declared
value expanded against the current ambient mapping. -/
def load_vars_step (expand : (String → Option String) → String → String)
    (p : (String → Option String) × (String → Option String))
    (kv : String × String) :
    (String → Option String) × (String → Option String) :=
  (match p.2 kv.1 with
   | some old => fun x => if x = kv.1 then some old else p.1 x
   | none => p.1,
   fun x => if x = kv.1 then some (expand p.2 kv.2) else p.2 x)

/-- Embedding of `Environment.load`: run the module loop over the declared modules,
then the variable loop over the declared variables, and mark the
environment loaded.  Returns the updated environment, the new ambient
state and the trace of backend load requests. -/
def Environment.load (conf : String → String → Bool)
    (expand : (String → Option String) → String → String)
    (e : Environment) (σ : Ambient) :
    Environment × Ambient × List ModReq :=
  let s := e.modules.foldl (load_mods_step conf)
    ⟨σ.mods, e.preloaded, e.conflicted, e.module_ops, []⟩
  let vs := e.vars.foldl (load_vars_step expand)
    (e.saved_variables, σ.environ)
  ({ e with
      loaded := true
      preloaded := s.preloaded
      conflicted := s.conflicted
      module_ops := s.ops
      saved_variables := vs.1 },
   ⟨vs.2, s.mods⟩, s.reqs)

/-- One iteration of the variable loop of `Environment.unload`: restore the
saved prior value of the key if one exists, otherwise delete the key if it
is present ambient. -/
def restore_var_step (saved : String → Option String)
    (env : String → Option String) (kv : String × String) :
    String → Option String :=
  match saved kv.1 with
  | some old => fun x => if x = kv.1 then some old else env x
  | none =>
      if (env kv.1).isSome then (fun x => if x = kv.1 then none else env x)
      else env

/-- The variable loop of `Environment.unload` over all declared variables. -/
def restore_vars (saved : String → Option String)
    (vars : List (String × String)) (env : String → Option String) :
    String → Option String :=
  vars.foldl (restore_var_step saved) env

/-- One iteration of the module loop of `Environment.unload`: skip the
module if it is recorded as preloaded, otherwise request a backend unload. -/
def unload_mods_step (preloaded : List String)
    (p : List String × List ModReq) (m : String) :
    List String × List ModReq :=
  if preloaded.contains m then p
  else (ModulesSystem.unload_module p.1 m, p.2 ++ [ModReq.unload m])

/-- The module loop of `Environment.unload`: unload the declared modules in
reverse declared order, skipping the ones recorded as preloaded.  Returns
the new module state and the trace of backend unload requests. -/
def unload_mods (preloaded : List String) (ms : List String)
    (st : List String) : List String × List ModReq :=
  ms.reverse.foldl (unload_mods_step preloaded) (st, [])

/-- One iteration of the conflicted-module loop of `Environment.unload`:
reload one conflicted module without force, tracking whether every reload
so far succeeded. -/
def reload_step (conf : String → String → Bool)
    (p : List String × List ModReq × Bool) (m : String) :
    List String × List ModReq × Bool :=
  let r := ModulesSystem.load_module conf false m p.1
  (r.1, p.2.1 ++ [ModReq.load false m], p.2.2 && r.2.2)

/-- The conflicted-module loop of `Environment.unload`: reload (without
force) every module recorded in `conflicted`, in order.  Returns the new
module state, the trace of backend load requests, and whether every
reload succeeded. -/
def reload_conflicted (conf : String → String → Bool)
    (conflicted : List String) (st : List String) :
    List String × List ModReq × Bool :=
  conflicted.foldl (reload_step conf) (st, [], true)

/-- Embedding of `Environment.unload`: a no-op when not loaded; otherwise restore the
declared variables, unload the non-preloaded declared modules in reverse
order, reload the conflicted modules, and mark the environment unloaded.
Returns the updated environment, the new ambient state, the trace of
backend requests, and whether every conflicted reload succeeded. -/
def Environment.unload (conf : String → String → Bool) (e : Environment)
    (σ : Ambient) : Environment × Ambient × List ModReq × Bool :=
  if e.loaded then
    let env' := restore_vars e.saved_variables e.vars σ.environ
    let p2 := unload_mods e.preloaded e.modules σ.mods
    let p3 := reload_conflicted conf e.conflicted p2.1
    ({ e with loaded := false }, ⟨env', p3.1⟩, p2.2 ++ p3.2.1, p3.2.2)
  else (e, σ, [], true)

/-- The ambient state after `E.load(); E.unload()` from ambient state `σ`. -/
def load_unload (conf : String → String → Bool)
    (expand : (String → Option String) → String → String)
    (e : Environment) (σ : Ambient) : Ambient :=
  let r := e.load conf expand σ
  (r.1.unload conf r.2.1).2.1

/-- Embedding of `Environment.is_loaded`: recomputed from the ambient state alone —
every declared module is reported loaded by the backend and every
current ambient value of every declared variable equals its declared value
expanded against the current ambient mapping. -/
def Environment.is_loaded (expand : (String → Option String) → String → String)
    (e : Environment) (σ : Ambient) : Bool :=
  e.modules.all (fun m => ModulesSystem.is_module_loaded σ.mods m) &&
  e.vars.all (fun kv => σ.environ kv.1 == some (expand σ.environ kv.2))

/-- Embedding of `Environment.__eq__` between two `Environment`s: same name, equal
module sets (`set(...) == set(...)`), and equal variable `OrderedDict`s
(which in Python compares both contents and insertion order). -/
def Environment.beq (a b : Environment) : Bool :=
  a.name == b.name &&
  (a.modules.all (fun m => b.modules.contains m) &&
   b.modules.all (fun m => a.modules.contains m)) &&
  a.vars == b.vars

/-- Embedding of `Environment.emit_unload_commands`, parametric in the
command emission capabilities `emitL`/`emitU` of the backend
(`emitLoadCommand` /
`emitUnloadCommand` of the spec): one `unset NAME` per declared variable
in declared order, then the module operation log replayed in reverse with
the load and unload command roles swapped; when the log is empty, backend
unload commands for the declared modules in reverse declared order. -/
def Environment.emit_unload_commands (emitL emitU : String → List String)
    (e : Environment) : List String :=
  let ret := e.vars.foldl (fun acc kv => acc ++ ["unset " ++ kv.1]) []
  let mops :=
    if e.module_ops.isEmpty then e.modules.reverse.map (fun m => (true, m))
    else e.module_ops.reverse
  mops.foldl (fun acc om => acc ++ (if om.1 then emitU om.2 else emitL om.2)) ret

/-- Embedding of `EnvironmentSnapshot`: captures at construction the full loaded-module
list and a full copy of the ambient variable mapping. -/
structure EnvironmentSnapshot where
  name : String
  modules : List String
  vars : String → Option String
  conflicted : List String

/-- Embedding of `EnvironmentSnapshot.__init__`: capture the loaded-module
list of the backend and the whole ambient variable mapping. -/
def EnvironmentSnapshot.make (name : String) (σ : Ambient) :
    EnvironmentSnapshot :=
  { name := name
    modules := σ.mods
    vars := σ.environ
    conflicted := [] }

/-- Embedding of `EnvironmentSnapshot.load`: clear the ambient variable mapping and
restore the captured copy; no module backend request is issued. -/
def EnvironmentSnapshot.load (s : EnvironmentSnapshot) (σ : Ambient) :
    Ambient × List ModReq :=
  (⟨s.vars, σ.mods⟩, [])

/-- Embedding of `EnvironmentSnapshot.is_loaded`: always raises `NotImplementedError`. -/
def EnvironmentSnapshot.is_loaded (_ : EnvironmentSnapshot) :
    Except String Bool :=
  .error "is_loaded is not a valid property of an environment snapshot"

/-- Embedding of `EnvironmentSnapshot.unload`: always raises `NotImplementedError`,
producing no new ambient state. -/
def EnvironmentSnapshot.unload (_ : EnvironmentSnapshot) (_ : Ambient) :
    Except String (Ambient × List ModReq) :=
  .error "cannot unload an environment snapshot"

/-- Embedding of `save_environment.__init__` / `__enter__`: capture a snapshot of the
current ambient state. -/
def save_environment_enter (σ : Ambient) : EnvironmentSnapshot :=
  EnvironmentSnapshot.make "env_snapshot" σ

/-- Embedding of `save_environment.__exit__`: restore the held snapshot. -/
def save_environment_exit (g : EnvironmentSnapshot) (σ : Ambient) :
    Ambient × List ModReq :=
  g.load σ

/-- Modelled from the spec: the identifier grammar `(\w|-)+` (sections 6
and 7) against which environment names are to be validated; `\w` is taken
in its ASCII reading (letters, digits, underscore).  The validating
`TypedField` machinery (`reframe/core/fields.py`, `reframe/utility/typecheck.py`)
is not among the sources. -/
def name_matches_grammar (s : String) : Bool :=
  !s.isEmpty && s.toList.all (fun c => c.isAlphanum || c == '_' || c == '-')

/-! ## General list lemmas -/

theorem foldl_append_eq {α β : Type} (f : α → List β) (l : List α) (acc : List β) :
    l.foldl (fun a x => a ++ f x) acc = acc ++ (l.map f).flatten := by
  induction l generalizing acc with
  | nil => simp
  | cons x xs ih => simp [ih, List.append_assoc]

theorem flatten_map_single {α β : Type} (g : α → β) (l : List α) :
    (l.map (fun x => [g x])).flatten = l.map g := by
  induction l with
  | nil => rfl
  | cons x xs ih => simp [ih]

/-! ## Claim theorems: equality, emission, snapshot, validation -/

/-- Claim C2, as stated, is false: `Environment.__eq__` compares the two
variable `OrderedDict`s, and that comparison is sensitive to insertion
order.  Two environments with the same name, the same (empty) module set
and permuted variable lists compare unequal. -/
theorem C2_counterexample :
    Environment.beq (Environment.make "e" [] [("a", "1"), ("b", "2")])
      (Environment.make "e" [] [("b", "2"), ("a", "1")]) = false ∧
    (Environment.make "e" [] [("a", "1"), ("b", "2")]).name =
      (Environment.make "e" [] [("b", "2"), ("a", "1")]).name ∧
    (Environment.make "e" [] [("a", "1"), ("b", "2")]).modules =
      (Environment.make "e" [] [("b", "2"), ("a", "1")]).modules ∧
    (Environment.make "e" [] [("a", "1"), ("b", "2")]).vars.Perm
      (Environment.make "e" [] [("b", "2"), ("a", "1")]).vars := by
  refine ⟨by decide, rfl, rfl, ?_⟩
  decide

/-- Claim C2, amended: `A == B` holds iff `A` and `B` have the same name,
the same module set compared order-insensitively, and variable mappings
with identical key insertion order and per-key values (order-sensitive). -/
theorem C2_eq_characterization (a b : Environment) :
    Environment.beq a b = true ↔
      (a.name = b.name ∧ (∀ m, m ∈ a.modules ↔ m ∈ b.modules) ∧
        a.vars = b.vars) := by
  unfold Environment.beq
  simp only [Bool.and_eq_true, List.all_eq_true, beq_iff_eq, List.elem_iff]
  constructor
  · rintro ⟨⟨hn, h1, h2⟩, hv⟩
    exact ⟨hn, fun m => ⟨fun hm => h1 m hm, fun hm => h2 m hm⟩, hv⟩
  · rintro ⟨hn, hm, hv⟩
    exact ⟨⟨hn, fun m h => (hm m).1 h, fun m h => (hm m).2 h⟩, hv⟩

/-- Claim C6: `emit_unload_commands` returns one `unset NAME` command per
declared variable in declared order, then the module commands obtained by
replaying the operation log in reverse with load/unload emission roles
swapped; with an empty log it falls back to backend unload commands for
the declared modules in reverse declared order. -/
theorem C6_emit_unload_commands (emitL emitU : String → List String)
    (e : Environment) :
    Environment.emit_unload_commands emitL emitU e =
      e.vars.map (fun kv => "unset " ++ kv.1) ++
      ((if e.module_ops = [] then
          e.modules.reverse.map (fun m => ((true : Bool), m))
        else e.module_ops.reverse).map
        (fun om => if om.1 then emitU om.2 else emitL om.2)).flatten := by
  unfold Environment.emit_unload_commands
  rw [foldl_append_eq (fun kv : String × String => ["unset " ++ kv.1]),
    foldl_append_eq (fun om : Bool × String => if om.1 then emitU om.2 else emitL om.2)]
  rw [flatten_map_single (fun kv : String × String => "unset " ++ kv.1)]
  cases h : e.module_ops with
  | nil => simp [h]
  | cons a t => simp [h]

/-- Claim C8: on an `EnvironmentSnapshot`, reading `is_loaded` and calling
`unload()` each raise an unsupported-operation error and produce no new
ambient state. -/
theorem C8_snapshot_unsupported (s : EnvironmentSnapshot) (σ : Ambient) :
    s.is_loaded =
      Except.error "is_loaded is not a valid property of an environment snapshot" ∧
    s.unload σ = Except.error "cannot unload an environment snapshot" :=
  ⟨rfl, rfl⟩

/-- Claim C10: `EnvironmentSnapshot.load` replaces the whole ambient
variable mapping with the captured copy, leaves the module-system state
unchanged and issues no backend request; consequently a
`save_environment` guard exit restores the variable mapping captured at
entry while leaving the module state of the exit moment untouched. -/
theorem C10_snapshot_load_frame (s : EnvironmentSnapshot) (σ σ₀ : Ambient) :
    ((s.load σ).1.mods = σ.mods ∧ (s.load σ).1.environ = s.vars ∧
      (s.load σ).2 = []) ∧
    ((save_environment_exit (save_environment_enter σ₀) σ).1.mods = σ.mods ∧
     (save_environment_exit (save_environment_enter σ₀) σ).1.environ = σ₀.environ ∧
     (save_environment_exit (save_environment_enter σ₀) σ).2 = []) :=
  ⟨⟨rfl, rfl, rfl⟩, ⟨rfl, rfl, rfl⟩⟩

/-- Claim C7 describes the intended behaviour (the class itself declares
`name = fields.TypedField(..., typ.Str[(\w|-)+])`), but the code
never runs that validator: the later read-only `name` property shadows
the descriptor and `__init__` assigns `self._name` directly, so an
`Environment` with a grammar-violating name is constructed without any
error. -/
theorem C7_invalid_name_constructed :
    name_matches_grammar "bad name!" = false ∧
    (Environment.make "bad name!" [] []).name = "bad name!" ∧
    (Environment.make "bad name!" [] []).loaded = false :=
  ⟨by decide, rfl, rfl⟩

/-- Claim C9: `Environment.is_loaded` is recomputed from the ambient state
alone — true iff every declared module is reported loaded and every
ambient value of every declared variable equals its expanded declared value —
and is unaffected by the activation bookkeeping (`loaded`,
`saved_variables`, `conflicted`, `preloaded`, `module_ops`), so it can be
true for an environment on which `load()` was never called. -/
theorem C9_is_loaded_recomputed
    (expand : (String → Option String) → String → String)
    (e : Environment) (σ : Ambient) :
    (Environment.is_loaded expand e σ = true ↔
      ((∀ m ∈ e.modules, m ∈ σ.mods) ∧
       (∀ kv ∈ e.vars, σ.environ kv.1 = some (expand σ.environ kv.2)))) ∧
    (∀ b sv cf pl ops,
      Environment.is_loaded expand
        { e with loaded := b, saved_variables := sv, conflicted := cf,
                 preloaded := pl, module_ops := ops } σ =
        Environment.is_loaded expand e σ) := by
  constructor
  · unfold Environment.is_loaded ModulesSystem.is_module_loaded
    simp [List.all_eq_true, List.elem_iff]
  · intro b sv cf pl ops
    rfl

/-! ## Variable loop lemmas -/

theorem load_vars_step_saved_key
    (expand : (String → Option String) → String → String)
    (p : (String → Option String) × (String → Option String)) (k v : String) :
    (load_vars_step expand p (k, v)).1 k =
      (match p.2 k with | some old => some old | none => p.1 k) := by
  unfold load_vars_step
  cases hc : p.2 k with
  | none => simp [hc]
  | some old => simp [hc]

theorem load_vars_step_env_key
    (expand : (String → Option String) → String → String)
    (p : (String → Option String) × (String → Option String)) (k v : String) :
    (load_vars_step expand p (k, v)).2 k = some (expand p.2 v) := by
  unfold load_vars_step
  simp

theorem load_vars_fold_notkey
    (expand : (String → Option String) → String → String)
    (l : List (String × String)) (s : String)
    (p : (String → Option String) × (String → Option String))
    (h : ∀ kv ∈ l, kv.1 ≠ s) :
    (l.foldl (load_vars_step expand) p).1 s = p.1 s ∧
    (l.foldl (load_vars_step expand) p).2 s = p.2 s := by
  induction l generalizing p with
  | nil => exact ⟨rfl, rfl⟩
  | cons kv t ih =>
    have hkv : kv.1 ≠ s := h kv (List.mem_cons_self _ _)
    have hs : ¬s = kv.1 := fun hh => hkv hh.symm
    have step1 : (load_vars_step expand p kv).1 s = p.1 s := by
      unfold load_vars_step
      cases hc : p.2 kv.1 with
      | none => rfl
      | some old => simp [if_neg hs]
    have step2 : (load_vars_step expand p kv).2 s = p.2 s := by
      unfold load_vars_step
      simp [if_neg hs]
    rw [List.foldl_cons]
    obtain ⟨a1, a2⟩ := ih (load_vars_step expand p kv)
      (fun kv' h' => h kv' (List.mem_cons_of_mem _ h'))
    exact ⟨a1.trans step1, a2.trans step2⟩

theorem load_vars_env_key
    (expand : (String → Option String) → String → String)
    (l₁ l₂ : List (String × String)) (X v : String)
    (p : (String → Option String) × (String → Option String))
    (h₂ : ∀ kv ∈ l₂, kv.1 ≠ X) :
    ((l₁ ++ (X, v) :: l₂).foldl (load_vars_step expand) p).2 X =
      some (expand (l₁.foldl (load_vars_step expand) p).2 v) := by
  rw [List.foldl_append, List.foldl_cons]
  exact ((load_vars_fold_notkey expand l₂ X _ h₂).2).trans
    (load_vars_step_env_key expand (l₁.foldl (load_vars_step expand) p) X v)

theorem load_vars_saved_key
    (expand : (String → Option String) → String → String)
    (l₁ l₂ : List (String × String)) (X v : String)
    (p : (String → Option String) × (String → Option String))
    (h₁ : ∀ kv ∈ l₁, kv.1 ≠ X) (h₂ : ∀ kv ∈ l₂, kv.1 ≠ X) :
    ((l₁ ++ (X, v) :: l₂).foldl (load_vars_step expand) p).1 X =
      (match p.2 X with | some old => some old | none => p.1 X) := by
  rw [List.foldl_append, List.foldl_cons]
  obtain ⟨b1, b2⟩ := load_vars_fold_notkey expand l₁ X p h₁
  rw [(load_vars_fold_notkey expand l₂ X _ h₂).1,
    load_vars_step_saved_key expand (l₁.foldl (load_vars_step expand) p) X v, b2]
  cases hc : p.2 X with
  | none => exact b1
  | some old => rfl

theorem restore_var_step_notkey (saved : String → Option String)
    (env : String → Option String) (kv : String × String) (s : String)
    (h : ¬s = kv.1) :
    restore_var_step saved env kv s = env s := by
  unfold restore_var_step
  cases hc : saved kv.1 with
  | some old => simp [if_neg h]
  | none =>
      by_cases he : (env kv.1).isSome <;> simp [he, if_neg h]

theorem restore_var_step_key (saved : String → Option String)
    (env : String → Option String) (k v : String) :
    restore_var_step saved env (k, v) k = saved k := by
  unfold restore_var_step
  cases hc : saved k with
  | some old => simp [hc]
  | none =>
      by_cases he : (env k).isSome
      · simp [hc, he]
      · simp [hc, he, Option.not_isSome_iff_eq_none.mp he]

theorem restore_fold_notkey (saved : String → Option String)
    (l : List (String × String)) (env : String → Option String) (s : String)
    (h : ∀ kv ∈ l, kv.1 ≠ s) :
    l.foldl (restore_var_step saved) env s = env s := by
  induction l generalizing env with
  | nil => rfl
  | cons kv t ih =>
    have hs : ¬s = kv.1 := fun hh => (h kv (List.mem_cons_self _ _)) hh.symm
    rw [List.foldl_cons, ih _ (fun kv' h' => h kv' (List.mem_cons_of_mem _ h')),
      restore_var_step_notkey saved env kv s hs]

theorem restore_vars_key (saved : String → Option String)
    (l₁ l₂ : List (String × String)) (X v : String)
    (env : String → Option String)
    (h₂ : ∀ kv ∈ l₂, kv.1 ≠ X) :
    restore_vars saved (l₁ ++ (X, v) :: l₂) env X = saved X := by
  unfold restore_vars
  rw [List.foldl_append, List.foldl_cons,
    restore_fold_notkey saved l₂ _ X h₂,
    restore_var_step_key saved (l₁.foldl (restore_var_step saved) env) X v]

theorem restore_vars_notkey (saved : String → Option String)
    (l : List (String × String)) (env : String → Option String) (s : String)
    (h : ∀ kv ∈ l, kv.1 ≠ s) :
    restore_vars saved l env s = env s :=
  restore_fold_notkey saved l env s h

/-- Unfolding `Environment.unload` when the environment is loaded. -/
theorem unload_of_loaded (conf : String → String → Bool) (e : Environment)
    (σ : Ambient) (h : e.loaded = true) :
    e.unload conf σ =
      ({ e with loaded := false },
       ⟨restore_vars e.saved_variables e.vars σ.environ,
        (reload_conflicted conf e.conflicted
          (unload_mods e.preloaded e.modules σ.mods).1).1⟩,
       (unload_mods e.preloaded e.modules σ.mods).2 ++
         (reload_conflicted conf e.conflicted
           (unload_mods e.preloaded e.modules σ.mods).1).2.1,
       (reload_conflicted conf e.conflicted
         (unload_mods e.preloaded e.modules σ.mods).1).2.2) := by
  unfold Environment.unload
  rw [h]
  rfl

/-- Claim C3: if the ambient state maps `X` to `old` and the environment
declares `X = new` (with no other declared occurrence of the key `X`),
then after `load()` the ambient value of `X` is `new` expanded against the
ambient variable mapping as it stood when `X` was set (after the declared
variables preceding `X` were processed), and after the matching `unload()`
the ambient value of `X` is `old` again. -/
theorem C3_variable_shadow_restore
    (conf : String → String → Bool)
    (expand : (String → Option String) → String → String)
    (e : Environment) (σ : Ambient) (X new old : String)
    (pre post : List (String × String))
    (hdecomp : e.vars = pre ++ (X, new) :: post)
    (hpre : ∀ kv ∈ pre, kv.1 ≠ X) (hpost : ∀ kv ∈ post, kv.1 ≠ X)
    (hold : σ.environ X = some old) :
    (e.load conf expand σ).2.1.environ X =
      some (expand (pre.foldl (load_vars_step expand)
        (e.saved_variables, σ.environ)).2 new) ∧
    ((e.load conf expand σ).1.unload conf
        (e.load conf expand σ).2.1).2.1.environ X = some old := by
  obtain ⟨n, ms, vv, ld, sv, cf, pl, ops⟩ := e
  simp only [Environment.vars, Environment.saved_variables] at hdecomp ⊢
  subst hdecomp
  constructor
  · exact load_vars_env_key expand pre post X new (sv, σ.environ) hpost
  · rw [unload_of_loaded conf _ _ rfl]
    show restore_vars
        ((pre ++ (X, new) :: post).foldl (load_vars_step expand) (sv, σ.environ)).1
        (pre ++ (X, new) :: post)
        ((pre ++ (X, new) :: post).foldl (load_vars_step expand) (sv, σ.environ)).2
        X = some old
    rw [restore_vars_key _ pre post X new _ hpost,
      load_vars_saved_key expand pre post X new (sv, σ.environ) hpre hpost]
    simp [hold]

/-- Witness for C3 at a concrete input: environment declaring `X = new`
over an ambient state with `X = old` and no modules. -/
theorem C3_witness :
    ((Environment.make "e" [] [("X", "new")]).load (fun _ _ => false) (fun _ s => s)
      ⟨fun s => if s = "X" then some "old" else none, []⟩).2.1.environ "X" =
        some "new" ∧
    (((Environment.make "e" [] [("X", "new")]).load (fun _ _ => false) (fun _ s => s)
        ⟨fun s => if s = "X" then some "old" else none, []⟩).1.unload (fun _ _ => false)
      ((Environment.make "e" [] [("X", "new")]).load (fun _ _ => false) (fun _ s => s)
        ⟨fun s => if s = "X" then some "old" else none, []⟩).2.1).2.1.environ "X" =
        some "old" := by
  have h := C3_variable_shadow_restore (fun _ _ => false) (fun _ s => s)
    (Environment.make "e" [] [("X", "new")])
    ⟨fun s => if s = "X" then some "old" else none, []⟩
    "X" "new" "old" [] [] rfl (by simp) (by simp) (by simp)
  exact ⟨h.1, h.2⟩

/-! ## Module loop lemmas: unload requests -/

theorem unload_fold_reqs (pl : List String) (l : List String)
    (p : List String × List ModReq) (x : String)
    (hx : pl.contains x = true)
    (hp : ModReq.unload x ∉ p.2) :
    ModReq.unload x ∉ (l.foldl (unload_mods_step pl) p).2 := by
  induction l generalizing p with
  | nil => exact hp
  | cons m t ih =>
    rw [List.foldl_cons]
    apply ih
    unfold unload_mods_step
    by_cases hm : pl.contains m
    · simp only [hm, if_true]
      exact hp
    · simp only [hm, Bool.false_eq_true, if_false]
      intro hmem
      rcases List.mem_append.mp hmem with h1 | h1
      · exact hp h1
      · have hxm : x = m := by
          cases List.mem_singleton.mp h1
          rfl
        rw [hxm] at hx
        exact hm hx

theorem reload_fold_no_unload_reqs (conf : String → String → Bool)
    (l : List String) (p : List String × List ModReq × Bool) (x : String)
    (hp : ModReq.unload x ∉ p.2.1) :
    ModReq.unload x ∉ (l.foldl (reload_step conf) p).2.1 := by
  induction l generalizing p with
  | nil => exact hp
  | cons m t ih =>
    rw [List.foldl_cons]
    apply ih
    unfold reload_step
    intro hmem
    rcases List.mem_append.mp hmem with h1 | h1
    · exact hp h1
    · exact absurd (List.mem_singleton.mp h1) (by simp)

/-- Claim C5: a declared module that the backend reports as already loaded
at the moment `load()` examines it (and which is therefore recorded in
`preloadedModules`) never receives an unload request from the matching
`unload()`. -/
theorem C5_preloaded_exempt (conf : String → String → Bool)
    (expand : (String → Option String) → String → String)
    (e : Environment) (σ : Ambient) (m : String)
    (_hfresh : e.preloaded = [])
    (hm : m ∈ (e.load conf expand σ).1.preloaded) :
    ModReq.unload m ∉
      ((e.load conf expand σ).1.unload conf (e.load conf expand σ).2.1).2.2.1 := by
  rw [unload_of_loaded conf _ _ rfl]
  intro hmem
  rcases List.mem_append.mp hmem with h1 | h1
  · exact unload_fold_reqs _ _ _ m (List.elem_iff.mpr hm) (by simp) h1
  · exact reload_fold_no_unload_reqs conf _ _ m (by simp) h1

/-- Witness for C5 at a concrete input: module `m1` is already loaded when
the environment examines it, and the matching unload issues no unload
request for it. -/
theorem C5_witness :
    (Environment.make "e" ["m1"] []).preloaded = [] ∧
    "m1" ∈ ((Environment.make "e" ["m1"] []).load (fun _ _ => false) (fun _ s => s)
        ⟨fun _ => none, ["m1"]⟩).1.preloaded ∧
    ModReq.unload "m1" ∉
      (((Environment.make "e" ["m1"] []).load (fun _ _ => false) (fun _ s => s)
          ⟨fun _ => none, ["m1"]⟩).1.unload (fun _ _ => false)
        ((Environment.make "e" ["m1"] []).load (fun _ _ => false) (fun _ s => s)
          ⟨fun _ => none, ["m1"]⟩).2.1).2.2.1 :=
  ⟨rfl, by decide,
    C5_preloaded_exempt (fun _ _ => false) (fun _ s => s)
      (Environment.make "e" ["m1"] []) ⟨fun _ => none, ["m1"]⟩ "m1" rfl (by decide)⟩

/-! ## Module loop lemmas: loading without conflicts -/

theorem load_mods_step_loaded (conf : String → String → Bool)
    (s : LoadMState) (m : String) (h : s.mods.contains m = true) :
    load_mods_step conf s m =
      ⟨s.mods,
       if s.preloaded.contains m then s.preloaded else s.preloaded ++ [m],
       s.conflicted, s.ops ++ [(true, m)], s.reqs ++ [ModReq.load true m]⟩ := by
  have hm : m ∈ s.mods := List.elem_iff.mp h
  unfold load_mods_step ModulesSystem.load_module ModulesSystem.is_module_loaded
  simp [h, hm]

theorem load_mods_step_not_loaded (conf : String → String → Bool)
    (s : LoadMState) (m : String) (h : s.mods.contains m = false)
    (hc : ∀ x, conf m x = false) :
    load_mods_step conf s m =
      ⟨s.mods ++ [m], s.preloaded, s.conflicted,
       s.ops ++ [(true, m)], s.reqs ++ [ModReq.load true m]⟩ := by
  have hm : m ∉ s.mods := by
    intro hmem
    have hh : s.mods.contains m = true := List.elem_iff.mpr hmem
    rw [hh] at h
    exact Bool.noConfusion h
  unfold load_mods_step ModulesSystem.load_module ModulesSystem.is_module_loaded
  simp [h, hm, hc]

theorem load_mods_step_preloaded_loaded (conf : String → String → Bool)
    (s : LoadMState) (m : String) (h : s.mods.contains m = true) :
    (load_mods_step conf s m).preloaded =
      if s.preloaded.contains m then s.preloaded else s.preloaded ++ [m] := by
  unfold load_mods_step ModulesSystem.is_module_loaded
  simp [h, List.elem_iff.mp h]

theorem load_mods_step_preloaded_not_loaded (conf : String → String → Bool)
    (s : LoadMState) (m : String) (h : s.mods.contains m = false) :
    (load_mods_step conf s m).preloaded = s.preloaded := by
  have hm : m ∉ s.mods := by
    intro hmem
    have hh : s.mods.contains m = true := List.elem_iff.mpr hmem
    rw [hh] at h
    exact Bool.noConfusion h
  unfold load_mods_step ModulesSystem.is_module_loaded
  simp [h, hm]

theorem load_fold_pre_mono (conf : String → String → Bool) (l : List String)
    (p : LoadMState) (x : String) (hx : x ∈ p.preloaded) :
    x ∈ (l.foldl (load_mods_step conf) p).preloaded := by
  induction l generalizing p with
  | nil => exact hx
  | cons m t ih =>
    rw [List.foldl_cons]
    apply ih
    by_cases h : p.mods.contains m = true
    · rw [load_mods_step_preloaded_loaded conf p m h]
      by_cases h2 : p.preloaded.contains m = true
      · simp only [h2, if_true]
        exact hx
      · simp only [h2, Bool.false_eq_true, if_false]
        exact List.mem_append_left _ hx
    · rw [load_mods_step_preloaded_not_loaded conf p m (Bool.eq_false_iff.mpr h)]
      exact hx

theorem load_fold_pre_bound (conf : String → String → Bool) (l : List String)
    (p : LoadMState) (x : String)
    (hx : x ∈ (l.foldl (load_mods_step conf) p).preloaded) :
    x ∈ p.preloaded ∨ x ∈ l := by
  induction l generalizing p with
  | nil => exact Or.inl hx
  | cons m t ih =>
    rw [List.foldl_cons] at hx
    rcases ih _ hx with h1 | h1
    · by_cases h : p.mods.contains m = true
      · rw [load_mods_step_preloaded_loaded conf p m h] at h1
        by_cases h2 : p.preloaded.contains m = true
        · rw [if_pos h2] at h1
          exact Or.inl h1
        · rw [if_neg (by simpa using h2)] at h1
          rcases List.mem_append.mp h1 with h3 | h3
          · exact Or.inl h3
          · exact Or.inr (by simp [List.mem_singleton.mp h3])
      · rw [load_mods_step_preloaded_not_loaded conf p m (Bool.eq_false_iff.mpr h)] at h1
        exact Or.inl h1
    · exact Or.inr (List.mem_cons_of_mem _ h1)

theorem load_fold_conflicted_eq (conf : String → String → Bool)
    (l : List String) (p : LoadMState)
    (hc : ∀ m ∈ l, ∀ x, conf m x = false) :
    (l.foldl (load_mods_step conf) p).conflicted = p.conflicted := by
  induction l generalizing p with
  | nil => rfl
  | cons m t ih =>
    rw [List.foldl_cons]
    rw [ih _ (fun m' h' => hc m' (List.mem_cons_of_mem _ h'))]
    by_cases h : p.mods.contains m = true
    · rw [load_mods_step_loaded conf p m h]
    · rw [load_mods_step_not_loaded conf p m (Bool.eq_false_iff.mpr h)
        (hc m (List.mem_cons_self _ _))]

theorem unload_mods_step_skip (pl : List String)
    (p : List String × List ModReq) (m : String) (h : m ∈ pl) :
    unload_mods_step pl p m = p := by
  unfold unload_mods_step
  rw [if_pos (List.elem_iff.mpr h)]

theorem unload_mods_step_erase (pl : List String)
    (p : List String × List ModReq) (m : String) (h : m ∉ pl) :
    unload_mods_step pl p m =
      (p.1.erase m, p.2 ++ [ModReq.unload m]) := by
  unfold unload_mods_step ModulesSystem.unload_module
  rw [if_neg (fun hcon => h (List.elem_iff.mp hcon))]

/-- Loading pairwise-distinct, conflict-free modules and then running the
unload module loop restores the initial module-system state exactly. -/
theorem mods_round_trip (conf : String → String → Bool) (ms : List String) :
    ∀ (st pre c : List String) (ops : List (Bool × String)) (reqs : List ModReq),
      ms.Nodup →
      (∀ m ∈ ms, ∀ x, conf m x = false) →
      (∀ m ∈ ms, m ∉ pre) →
      (unload_mods
          (List.foldl (load_mods_step conf) ⟨st, pre, c, ops, reqs⟩ ms).preloaded
          ms
          (List.foldl (load_mods_step conf) ⟨st, pre, c, ops, reqs⟩ ms).mods).1 = st := by
  induction ms with
  | nil =>
    intro st pre c ops reqs _ _ _
    rfl
  | cons m t ih =>
    intro st pre c ops reqs hnd hc hp
    have hmt : m ∉ t := (List.nodup_cons.mp hnd).1
    have hndt : t.Nodup := (List.nodup_cons.mp hnd).2
    have hct : ∀ m' ∈ t, ∀ x, conf m' x = false :=
      fun m' h' => hc m' (List.mem_cons_of_mem _ h')
    have hpm : m ∉ pre := hp m (List.mem_cons_self _ _)
    unfold unload_mods
    rw [List.foldl_cons, List.reverse_cons, List.foldl_append, List.foldl_cons,
      List.foldl_nil]
    by_cases h : st.contains m = true
    · rw [load_mods_step_loaded conf ⟨st, pre, c, ops, reqs⟩ m h]
      have hpreb : pre.contains m = false :=
        Bool.eq_false_iff.mpr (fun hcon => hpm (List.elem_iff.mp hcon))
      dsimp only
      rw [hpreb]
      simp only [Bool.false_eq_true, if_false]
      have hIH := ih st (pre ++ [m]) c (ops ++ [(true, m)])
        (reqs ++ [ModReq.load true m]) hndt hct
        (fun m' h' hin => by
          rcases List.mem_append.mp hin with h1 | h1
          · exact hp m' (List.mem_cons_of_mem _ h') h1
          · exact hmt (List.mem_singleton.mp h1 ▸ h'))
      unfold unload_mods at hIH
      have hmem : m ∈ (List.foldl (load_mods_step conf)
          ⟨st, pre ++ [m], c, ops ++ [(true, m)], reqs ++ [ModReq.load true m]⟩
          t).preloaded :=
        load_fold_pre_mono conf t _ m (List.mem_append_right _ (List.mem_singleton.mpr rfl))
      rw [unload_mods_step_skip _ _ _ hmem]
      exact hIH
    · have hb : st.contains m = false := Bool.eq_false_iff.mpr h
      have hmst : m ∉ st := fun hmem => by
        have hh : st.contains m = true := List.elem_iff.mpr hmem
        rw [hh] at hb
        exact Bool.noConfusion hb
      rw [load_mods_step_not_loaded conf ⟨st, pre, c, ops, reqs⟩ m hb
        (hc m (List.mem_cons_self _ _))]
      dsimp only
      have hIH := ih (st ++ [m]) pre c (ops ++ [(true, m)])
        (reqs ++ [ModReq.load true m]) hndt hct
        (fun m' h' => hp m' (List.mem_cons_of_mem _ h'))
      unfold unload_mods at hIH
      have hnmem : m ∉ (List.foldl (load_mods_step conf)
          ⟨st ++ [m], pre, c, ops ++ [(true, m)], reqs ++ [ModReq.load true m]⟩
          t).preloaded := by
        intro hmem
        rcases load_fold_pre_bound conf t _ m hmem with h1 | h1
        · exact hpm h1
        · exact hmt h1
      rw [unload_mods_step_erase _ _ _ hnmem]
      dsimp only
      rw [hIH, List.erase_append_right _ hmst, List.erase_cons_head,
        List.append_nil]

/-- The keys of an `odict`-normalized variable list are pairwise distinct. -/
theorem odict_keys_nodup (l : List (String × String)) :
    ((odict l).map Prod.fst).Nodup := by
  suffices h : ∀ acc : List (String × String), (acc.map Prod.fst).Nodup →
      ((l.foldl (fun acc kv =>
        if acc.any (fun p => p.1 = kv.1) then
          acc.map (fun p => if p.1 = kv.1 then (p.1, kv.2) else p)
        else acc ++ [kv]) acc).map Prod.fst).Nodup by
    exact h [] (by simp)
  induction l with
  | nil => intro acc hacc; exact hacc
  | cons kv t ih =>
    intro acc hacc
    rw [List.foldl_cons]
    apply ih
    by_cases hany : acc.any (fun p => p.1 = kv.1) = true
    · rw [if_pos hany]
      have hkeys : (acc.map (fun p => if p.1 = kv.1 then (p.1, kv.2) else p)).map Prod.fst
          = acc.map Prod.fst := by
        rw [List.map_map]
        apply List.map_congr_left
        intro p _
        by_cases hp : p.1 = kv.1 <;> simp [hp]
      rw [hkeys]
      exact hacc
    · rw [if_neg hany]
      rw [List.map_append]
      rw [List.nodup_append]
      refine ⟨hacc, by simp, ?_⟩
      intro a ha hb
      have hb' : a = kv.1 := by
        simp at hb
        exact hb
      obtain ⟨p, hp, hpa⟩ := List.mem_map.mp ha
      have : acc.any (fun p => p.1 = kv.1) = true :=
        List.any_eq_true.mpr ⟨p, hp, by simp [hpa, hb']⟩
      exact hany this

/-- Splitting a duplicate-free key list around one binding. -/
theorem keys_nodup_split (l₁ l₂ : List (String × String))
    (kv : String × String) (s : String) (hkey : kv.1 = s)
    (h : ((l₁ ++ kv :: l₂).map Prod.fst).Nodup) :
    (∀ p ∈ l₁, p.1 ≠ s) ∧ (∀ p ∈ l₂, p.1 ≠ s) := by
  rw [List.map_append, List.map_cons, hkey] at h
  obtain ⟨h1, h2, hdisj⟩ := List.nodup_append.mp h
  constructor
  · intro p hp heq
    exact hdisj (heq ▸ List.mem_map_of_mem Prod.fst hp) (List.mem_cons_self _ _)
  · intro p hp heq
    exact (List.nodup_cons.mp h2).1 (heq ▸ List.mem_map_of_mem Prod.fst hp)

/-- Setting duplicate-free declared variables and then running the unload
variable loop restores the initial ambient variable mapping pointwise. -/
theorem vars_round_trip (expand : (String → Option String) → String → String)
    (l : List (String × String)) (env0 : String → Option String)
    (hnd : (l.map Prod.fst).Nodup) (s : String) :
    restore_vars (l.foldl (load_vars_step expand) (fun _ => none, env0)).1 l
      (l.foldl (load_vars_step expand) (fun _ => none, env0)).2 s = env0 s := by
  by_cases hs : ∃ kv ∈ l, kv.1 = s
  · obtain ⟨kv, hkv, hkey⟩ := hs
    obtain ⟨l₁, l₂, hd⟩ := List.append_of_mem hkv
    subst hd
    obtain ⟨hk1, hk2⟩ := keys_nodup_split l₁ l₂ kv s hkey hnd
    obtain ⟨k1, k2⟩ := kv
    have hk1s : k1 = s := hkey
    subst hk1s
    rw [restore_vars_key _ l₁ l₂ k1 k2 _ hk2,
      load_vars_saved_key expand l₁ l₂ k1 k2 (fun _ => none, env0) hk1 hk2]
    show (match env0 k1 with
          | some old => some old
          | none => (none : Option String)) = env0 k1
    cases h : env0 k1 <;> simp
  · push_neg at hs
    rw [restore_vars_notkey _ _ _ _ (fun kv h => hs kv h)]
    exact (load_vars_fold_notkey expand l s _ (fun kv h => hs kv h)).2

/-- Claim C1, as stated, is false: an environment that declares the same
module twice marks it as preloaded at its second examination, so the
matching `unload()` skips it and the module stays loaded.  Starting from
an ambient state with no loaded modules, `load(); unload()` leaves module
`a` loaded. -/
theorem C1_counterexample :
    (load_unload (fun _ _ => false) (fun _ s => s)
      (Environment.make "e" ["a", "a"] []) ⟨fun _ => none, []⟩).mods = ["a"] := by
  decide

/-- Claim C1, amended: for an `Environment` built from configuration whose
declared modules are pairwise distinct and conflict with nothing,
`load(); unload()` restores the ambient variable mapping and the loaded
module list exactly. -/
theorem C1_round_trip (conf : String → String → Bool)
    (expand : (String → Option String) → String → String)
    (n : String) (ms : List String) (vs : List (String × String))
    (σ : Ambient)
    (hnd : ms.Nodup)
    (hconf : ∀ m ∈ ms, ∀ x, conf m x = false) :
    (load_unload conf expand (Environment.make n ms vs) σ).mods = σ.mods ∧
    ∀ s, (load_unload conf expand (Environment.make n ms vs) σ).environ s =
      σ.environ s := by
  refine ⟨?_, fun s => ?_⟩
  · show (reload_conflicted conf
        (List.foldl (load_mods_step conf) ⟨σ.mods, [], [], [], []⟩ ms).conflicted
        (unload_mods
          (List.foldl (load_mods_step conf) ⟨σ.mods, [], [], [], []⟩ ms).preloaded
          ms
          (List.foldl (load_mods_step conf) ⟨σ.mods, [], [], [], []⟩ ms).mods).1).1
      = σ.mods
    rw [load_fold_conflicted_eq conf ms _ hconf]
    exact mods_round_trip conf ms σ.mods [] [] [] [] hnd hconf
      (fun m _ hin => List.not_mem_nil m hin)
  · show restore_vars
        ((odict vs).foldl (load_vars_step expand) (fun _ => none, σ.environ)).1
        (odict vs)
        ((odict vs).foldl (load_vars_step expand) (fun _ => none, σ.environ)).2 s
      = σ.environ s
    exact vars_round_trip expand (odict vs) σ.environ (odict_keys_nodup vs) s

/-- Witness for C1 at a concrete input: one module, one shadowed variable. -/
theorem C1_witness :
    List.Nodup ["m1"] ∧
    (load_unload (fun _ _ => false) (fun _ s => s)
      (Environment.make "e" ["m1"] [("X", "1")])
      ⟨fun s => if s = "X" then some "old" else none, []⟩).mods = [] ∧
    (load_unload (fun _ _ => false) (fun _ s => s)
      (Environment.make "e" ["m1"] [("X", "1")])
      ⟨fun s => if s = "X" then some "old" else none, []⟩).environ "X" =
        some "old" := by
  have h := C1_round_trip (fun _ _ => false) (fun _ s => s) "e" ["m1"]
    [("X", "1")] ⟨fun s => if s = "X" then some "old" else none, []⟩
    (by decide) (fun _ _ _ => rfl)
  exact ⟨by decide, h.1, (h.2 "X").trans (by simp)⟩

/-! ## Module loop lemmas: conflicts and the conflicted reload -/

theorem nodup_concat {l : List String} {m : String} (h : l.Nodup)
    (hm : m ∉ l) : (l ++ [m]).Nodup := by
  rw [List.nodup_append]
  exact ⟨h, List.nodup_singleton m,
    fun a ha hb => hm ((List.mem_singleton.mp hb) ▸ ha)⟩

theorem load_module_nodup (conf : String → String → Bool) (force : Bool)
    (m : String) (st : List String) (h : st.Nodup) :
    (ModulesSystem.load_module conf force m st).1.Nodup := by
  unfold ModulesSystem.load_module
  by_cases h1 : st.contains m = true
  · rw [if_pos h1]
    exact h
  · have hm : m ∉ st := fun hmem => h1 (List.elem_iff.mpr hmem)
    rw [if_neg h1]
    by_cases h2 : (st.filter (fun x => conf m x)).isEmpty = true
    · simp only [h2, if_true]
      exact nodup_concat h hm
    · simp only [h2, Bool.false_eq_true, if_false]
      by_cases h3 : force = true
      · simp only [h3, if_true]
        exact nodup_concat (h.filter _)
          (fun hmem => hm (List.mem_of_mem_filter hmem))
      · simp only [h3, Bool.false_eq_true, if_false]
        exact h

theorem load_module_mods_subset (conf : String → String → Bool) (force : Bool)
    (m : String) (st : List String) (x : String)
    (hx : x ∈ (ModulesSystem.load_module conf force m st).1) :
    x ∈ st ∨ x = m := by
  unfold ModulesSystem.load_module at hx
  by_cases h1 : st.contains m = true
  · rw [if_pos h1] at hx
    exact Or.inl hx
  · rw [if_neg h1] at hx
    by_cases h2 : (st.filter (fun x => conf m x)).isEmpty = true
    · simp only [h2, if_true] at hx
      rcases List.mem_append.mp hx with h3 | h3
      · exact Or.inl h3
      · exact Or.inr (List.mem_singleton.mp h3)
    · simp only [h2, Bool.false_eq_true, if_false] at hx
      by_cases h3 : force = true
      · simp only [h3, if_true] at hx
        rcases List.mem_append.mp hx with h4 | h4
        · exact Or.inl (List.mem_of_mem_filter h4)
        · exact Or.inr (List.mem_singleton.mp h4)
      · simp only [h3, Bool.false_eq_true, if_false] at hx
        exact Or.inl hx

theorem load_module_confl_subset (conf : String → String → Bool) (force : Bool)
    (m : String) (st : List String) (x : String)
    (hx : x ∈ (ModulesSystem.load_module conf force m st).2.1) :
    x ∈ st := by
  unfold ModulesSystem.load_module at hx
  by_cases h1 : st.contains m = true
  · rw [if_pos h1] at hx
    exact absurd hx (List.not_mem_nil x)
  · rw [if_neg h1] at hx
    by_cases h2 : (st.filter (fun x => conf m x)).isEmpty = true
    · simp only [h2, if_true] at hx
      exact absurd hx (List.not_mem_nil x)
    · simp only [h2, Bool.false_eq_true, if_false] at hx
      by_cases h3 : force = true
      · simp only [h3, if_true] at hx
        exact List.mem_of_mem_filter hx
      · simp only [h3, Bool.false_eq_true, if_false] at hx
        exact absurd hx (List.not_mem_nil x)

theorem load_module_confl_facts (conf : String → String → Bool)
    (b : String) (st : List String) (a : String)
    (h : a ∈ (ModulesSystem.load_module conf true b st).2.1) :
    a ∈ st ∧ conf b a = true ∧ st.contains b = false := by
  unfold ModulesSystem.load_module at h
  by_cases h1 : st.contains b = true
  · rw [if_pos h1] at h
    exact absurd h (List.not_mem_nil a)
  · rw [if_neg h1] at h
    by_cases h2 : (st.filter (fun x => conf b x)).isEmpty = true
    · simp only [h2, if_true] at h
      exact absurd h (List.not_mem_nil a)
    · simp only [h2, Bool.false_eq_true, if_false, if_true] at h
      obtain ⟨ha, hc⟩ := List.mem_filter.mp h
      exact ⟨ha, hc, Bool.eq_false_iff.mpr h1⟩

theorem load_mods_step_mods (conf : String → String → Bool)
    (s : LoadMState) (m : String) :
    (load_mods_step conf s m).mods =
      (ModulesSystem.load_module conf true m s.mods).1 := rfl

theorem load_mods_step_conflicted (conf : String → String → Bool)
    (s : LoadMState) (m : String) :
    (load_mods_step conf s m).conflicted =
      s.conflicted ++ (ModulesSystem.load_module conf true m s.mods).2.1 := rfl

theorem load_fold_mods_nodup (conf : String → String → Bool)
    (l : List String) (p : LoadMState) (h : p.mods.Nodup) :
    (l.foldl (load_mods_step conf) p).mods.Nodup := by
  induction l generalizing p with
  | nil => exact h
  | cons m t ih =>
    rw [List.foldl_cons]
    exact ih _ (by rw [load_mods_step_mods]; exact load_module_nodup conf true m p.mods h)

theorem load_fold_mods_bound (conf : String → String → Bool)
    (l : List String) (p : LoadMState) (x : String)
    (hx : x ∈ (l.foldl (load_mods_step conf) p).mods) :
    x ∈ p.mods ∨ x ∈ l := by
  induction l generalizing p with
  | nil => exact Or.inl hx
  | cons m t ih =>
    rw [List.foldl_cons] at hx
    rcases ih _ hx with h1 | h1
    · rw [load_mods_step_mods] at h1
      rcases load_module_mods_subset conf true m p.mods x h1 with h2 | h2
      · exact Or.inl h2
      · exact Or.inr (by simp [h2])
    · exact Or.inr (List.mem_cons_of_mem _ h1)

theorem load_fold_conflicted_suffix (conf : String → String → Bool)
    (l : List String) (p : LoadMState) :
    ∃ t2, (l.foldl (load_mods_step conf) p).conflicted = p.conflicted ++ t2 := by
  induction l generalizing p with
  | nil => exact ⟨[], (List.append_nil _).symm⟩
  | cons m t ih =>
    rw [List.foldl_cons]
    obtain ⟨t2, ht⟩ := ih (load_mods_step conf p m)
    rw [load_mods_step_conflicted] at ht
    exact ⟨(ModulesSystem.load_module conf true m p.mods).2.1 ++ t2,
      by rw [ht, List.append_assoc]⟩

theorem load_fold_conflicted_bound (conf : String → String → Bool)
    (l : List String) (p : LoadMState) (x : String)
    (hx : x ∈ (l.foldl (load_mods_step conf) p).conflicted) :
    x ∈ p.conflicted ∨ x ∈ p.mods ∨ x ∈ l := by
  induction l generalizing p with
  | nil => exact Or.inl hx
  | cons m t ih =>
    rw [List.foldl_cons] at hx
    rcases ih _ hx with h1 | h1 | h1
    · rw [load_mods_step_conflicted] at h1
      rcases List.mem_append.mp h1 with h2 | h2
      · exact Or.inl h2
      · exact Or.inr (Or.inl (load_module_confl_subset conf true m p.mods x h2))
    · rw [load_mods_step_mods] at h1
      rcases load_module_mods_subset conf true m p.mods x h1 with h2 | h2
      · exact Or.inr (Or.inl h2)
      · exact Or.inr (Or.inr (by simp [h2]))
    · exact Or.inr (Or.inr (List.mem_cons_of_mem _ h1))

theorem unload_fold_mods_subset (pl : List String) (l : List String)
    (p : List String × List ModReq) (x : String)
    (hx : x ∈ (l.foldl (unload_mods_step pl) p).1) : x ∈ p.1 := by
  induction l generalizing p with
  | nil => exact hx
  | cons m t ih =>
    rw [List.foldl_cons] at hx
    have h1 := ih _ hx
    by_cases hm : m ∈ pl
    · rwa [unload_mods_step_skip pl p m hm] at h1
    · rw [unload_mods_step_erase pl p m hm] at h1
      exact List.erase_subset _ _ h1

theorem unload_fold_mods_nodup (pl : List String) (l : List String)
    (p : List String × List ModReq) (h : p.1.Nodup) :
    (l.foldl (unload_mods_step pl) p).1.Nodup := by
  induction l generalizing p with
  | nil => exact h
  | cons m t ih =>
    rw [List.foldl_cons]
    by_cases hm : m ∈ pl
    · rw [unload_mods_step_skip pl p m hm]
      exact ih _ h
    · rw [unload_mods_step_erase pl p m hm]
      exact ih _ (h.erase m)

theorem unload_mods_not_mem (pl : List String) (ms₁ ms₂ : List String)
    (b : String) (st : List String) (hnd : st.Nodup) (hbpre : b ∉ pl) :
    b ∉ (unload_mods pl (ms₁ ++ b :: ms₂) st).1 := by
  unfold unload_mods
  rw [List.reverse_append, List.reverse_cons, List.append_assoc,
    List.foldl_append]
  intro hmem
  rw [List.foldl_append] at hmem
  have h1 := unload_fold_mods_subset pl ms₁.reverse _ b hmem
  rw [List.foldl_cons, List.foldl_nil] at h1
  rw [unload_mods_step_erase pl _ b hbpre] at h1
  dsimp only at h1
  have hnd2 : (List.foldl (unload_mods_step pl) (st, ([] : List ModReq))
      ms₂.reverse).1.Nodup := unload_fold_mods_nodup pl _ _ hnd
  exact (hnd2.mem_erase_iff.mp h1).1 rfl

theorem reload_step_parts (conf : String → String → Bool)
    (p : List String × List ModReq × Bool) (m : String) :
    (reload_step conf p m).1 = (ModulesSystem.load_module conf false m p.1).1 ∧
    (reload_step conf p m).2.2 =
      (p.2.2 && (ModulesSystem.load_module conf false m p.1).2.2) := ⟨rfl, rfl⟩

theorem load_module_false_mono (conf : String → String → Bool) (m : String)
    (st : List String) (x : String) (hx : x ∈ st) :
    x ∈ (ModulesSystem.load_module conf false m st).1 := by
  unfold ModulesSystem.load_module
  by_cases h1 : st.contains m = true
  · rw [if_pos h1]
    exact hx
  · rw [if_neg h1]
    by_cases h2 : (st.filter (fun x => conf m x)).isEmpty = true
    · simp only [h2, if_true]
      exact List.mem_append_left _ hx
    · simp only [h2, Bool.false_eq_true, if_false]
      exact hx

theorem load_module_false_ok_mem (conf : String → String → Bool) (m : String)
    (st : List String)
    (hok : (ModulesSystem.load_module conf false m st).2.2 = true) :
    m ∈ (ModulesSystem.load_module conf false m st).1 := by
  unfold ModulesSystem.load_module at hok ⊢
  by_cases h1 : st.contains m = true
  · rw [if_pos h1]
    exact List.elem_iff.mp h1
  · rw [if_neg h1]
    rw [if_neg h1] at hok
    by_cases h2 : (st.filter (fun x => conf m x)).isEmpty = true
    · simp only [h2, if_true]
      exact List.mem_append_right _ (List.mem_singleton.mpr rfl)
    · simp only [h2, Bool.false_eq_true, if_false] at hok

theorem reload_fold_mods_mono (conf : String → String → Bool)
    (l : List String) (p : List String × List ModReq × Bool) (x : String)
    (hx : x ∈ p.1) : x ∈ (l.foldl (reload_step conf) p).1 := by
  induction l generalizing p with
  | nil => exact hx
  | cons m t ih =>
    rw [List.foldl_cons]
    exact ih _ ((reload_step_parts conf p m).1 ▸
      load_module_false_mono conf m p.1 x hx)

theorem reload_fold_ok (conf : String → String → Bool) (l : List String)
    (p : List String × List ModReq × Bool)
    (h : (l.foldl (reload_step conf) p).2.2 = true) : p.2.2 = true := by
  induction l generalizing p with
  | nil => exact h
  | cons m t ih =>
    rw [List.foldl_cons] at h
    have h1 := ih _ h
    rw [(reload_step_parts conf p m).2] at h1
    exact (Bool.and_eq_true _ _).mp h1 |>.1

theorem reload_fold_mem (conf : String → String → Bool) (l : List String)
    (p : List String × List ModReq × Bool) (x : String) (hx : x ∈ l)
    (hok : (l.foldl (reload_step conf) p).2.2 = true) :
    x ∈ (l.foldl (reload_step conf) p).1 := by
  induction l generalizing p with
  | nil => exact absurd hx (List.not_mem_nil x)
  | cons m t ih =>
    rw [List.foldl_cons] at hok ⊢
    rcases List.mem_cons.mp hx with h1 | h1
    · subst h1
      apply reload_fold_mods_mono
      have hstep : (reload_step conf p x).2.2 = true := reload_fold_ok conf t _ hok
      rw [(reload_step_parts conf p x).2] at hstep
      have hr : (ModulesSystem.load_module conf false x p.1).2.2 = true :=
        ((Bool.and_eq_true _ _).mp hstep).2
      rw [(reload_step_parts conf p x).1]
      exact load_module_false_ok_mem conf x p.1 hr
    · exact ih _ h1 hok

theorem load_module_false_subset (conf : String → String → Bool) (m : String)
    (st : List String) (x : String)
    (hx : x ∈ (ModulesSystem.load_module conf false m st).1) :
    x ∈ st ∨ x = m :=
  load_module_mods_subset conf false m st x hx

theorem reload_fold_not_mem (conf : String → String → Bool) (l : List String)
    (p : List String × List ModReq × Bool) (b : String)
    (hb : b ∉ p.1) (hbl : b ∉ l) : b ∉ (l.foldl (reload_step conf) p).1 := by
  induction l generalizing p with
  | nil => exact hb
  | cons m t ih =>
    rw [List.foldl_cons]
    have hbm : b ≠ m := fun h => hbl (by simp [h])
    apply ih
    · intro hmem
      rw [(reload_step_parts conf p m).1] at hmem
      rcases load_module_false_subset conf m p.1 b hmem with h1 | h1
      · exact hb h1
      · exact hbm h1
    · exact fun h => hbl (List.mem_cons_of_mem _ h)

theorem reload_fold_conflict_fails (conf : String → String → Bool)
    (l : List String) (p : List String × List ModReq × Bool) (a b : String)
    (ha : a ∈ p.1) (hb : b ∉ p.1) (hba : conf b a = true) (hbl : b ∈ l)
    (hok : (l.foldl (reload_step conf) p).2.2 = true) : False := by
  induction l generalizing p with
  | nil => exact absurd hbl (List.not_mem_nil b)
  | cons m t ih =>
    rw [List.foldl_cons] at hok
    by_cases hm : m = b
    · subst hm
      have hstep : (reload_step conf p m).2.2 = true := reload_fold_ok conf t _ hok
      rw [(reload_step_parts conf p m).2] at hstep
      have hr : (ModulesSystem.load_module conf false m p.1).2.2 = true :=
        ((Bool.and_eq_true _ _).mp hstep).2
      unfold ModulesSystem.load_module at hr
      have h1 : p.1.contains m = false :=
        Bool.eq_false_iff.mpr (fun hcon => hb (List.elem_iff.mp hcon))
      rw [h1] at hr
      simp only [Bool.false_eq_true, if_false] at hr
      have h2 : (p.1.filter (fun x => conf m x)).isEmpty = false := by
        have : a ∈ p.1.filter (fun x => conf m x) :=
          List.mem_filter.mpr ⟨ha, hba⟩
        cases hemp : (p.1.filter (fun x => conf m x)).isEmpty
        · rfl
        · rw [List.isEmpty_iff] at hemp
          rw [hemp] at this
          exact absurd this (List.not_mem_nil a)
      rw [h2] at hr
      simp at hr
    · have hbt : b ∈ t := by
        rcases List.mem_cons.mp hbl with h1 | h1
        · exact absurd h1.symm hm
        · exact h1
      exact ih (reload_step conf p m)
        (by
          rw [(reload_step_parts conf p m).1]
          exact load_module_false_mono conf m p.1 a ha)
        (fun hmem => by
          rw [(reload_step_parts conf p m).1] at hmem
          rcases load_module_false_subset conf m p.1 b hmem with h1 | h1
          · exact hb h1
          · exact hm h1.symm)
        hbt hok

/-- Core of the conflict-restore property, stated on the load/unload module
loops: if module `b`, declared between `ms₁` and `ms₂`, force-unloads `a`
when loaded, `b` is not initially loaded, the module lists are
duplicate-free, and every conflicted reload of the unload succeeds, then
after the unload `a` is loaded and `b` is not. -/
theorem C4_core (conf : String → String → Bool) (ms₁ ms₂ : List String)
    (b a : String) (σmods : List String)
    (hnd : (ms₁ ++ b :: ms₂).Nodup) (hstnd : σmods.Nodup) (hbσ : b ∉ σmods)
    (hconfl : a ∈ (ModulesSystem.load_module conf true b
      (List.foldl (load_mods_step conf) ⟨σmods, [], [], [], []⟩ ms₁).mods).2.1)
    (hok : (reload_conflicted conf
      (List.foldl (load_mods_step conf) ⟨σmods, [], [], [], []⟩
        (ms₁ ++ b :: ms₂)).conflicted
      (unload_mods
        (List.foldl (load_mods_step conf) ⟨σmods, [], [], [], []⟩
          (ms₁ ++ b :: ms₂)).preloaded
        (ms₁ ++ b :: ms₂)
        (List.foldl (load_mods_step conf) ⟨σmods, [], [], [], []⟩
          (ms₁ ++ b :: ms₂)).mods).1).2.2 = true) :
    a ∈ (reload_conflicted conf
      (List.foldl (load_mods_step conf) ⟨σmods, [], [], [], []⟩
        (ms₁ ++ b :: ms₂)).conflicted
      (unload_mods
        (List.foldl (load_mods_step conf) ⟨σmods, [], [], [], []⟩
          (ms₁ ++ b :: ms₂)).preloaded
        (ms₁ ++ b :: ms₂)
        (List.foldl (load_mods_step conf) ⟨σmods, [], [], [], []⟩
          (ms₁ ++ b :: ms₂)).mods).1).1 ∧
    b ∉ (reload_conflicted conf
      (List.foldl (load_mods_step conf) ⟨σmods, [], [], [], []⟩
        (ms₁ ++ b :: ms₂)).conflicted
      (unload_mods
        (List.foldl (load_mods_step conf) ⟨σmods, [], [], [], []⟩
          (ms₁ ++ b :: ms₂)).preloaded
        (ms₁ ++ b :: ms₂)
        (List.foldl (load_mods_step conf) ⟨σmods, [], [], [], []⟩
          (ms₁ ++ b :: ms₂)).mods).1).1 := by
  set F1 : LoadMState :=
    List.foldl (load_mods_step conf) ⟨σmods, [], [], [], []⟩ ms₁ with hF1
  have hFsplit : List.foldl (load_mods_step conf) ⟨σmods, [], [], [], []⟩
      (ms₁ ++ b :: ms₂) =
      List.foldl (load_mods_step conf) (load_mods_step conf F1 b) ms₂ := by
    rw [List.foldl_append, List.foldl_cons, hF1]
  obtain ⟨haF1, hba, hbF1⟩ := load_module_confl_facts conf b F1.mods a hconfl
  obtain ⟨hnd₁, hnd₂', hdisj⟩ := List.nodup_append.mp hnd
  have hbms₁ : b ∉ ms₁ := fun h => hdisj h (List.mem_cons_self _ _)
  have hbms₂ : b ∉ ms₂ := (List.nodup_cons.mp hnd₂').1
  have hF1mods_bound : ∀ x, x ∈ F1.mods → x ∈ σmods ∨ x ∈ ms₁ := fun x hx =>
    load_fold_mods_bound conf ms₁ _ x hx
  have hbF1conf : b ∉ F1.conflicted := by
    intro hb
    rcases load_fold_conflicted_bound conf ms₁ _ b hb with h | h | h
    · exact absurd h (List.not_mem_nil b)
    · exact hbσ h
    · exact hbms₁ h
  have hbconfl_b : b ∉ (ModulesSystem.load_module conf true b F1.mods).2.1 := by
    intro hbc
    rcases hF1mods_bound b (load_module_confl_subset conf true b F1.mods b hbc)
      with h | h
    · exact hbσ h
    · exact hbms₁ h
  obtain ⟨t2, ht2⟩ :=
    load_fold_conflicted_suffix conf ms₂ (load_mods_step conf F1 b)
  have hFconf : (List.foldl (load_mods_step conf) ⟨σmods, [], [], [], []⟩
      (ms₁ ++ b :: ms₂)).conflicted =
      (F1.conflicted ++
        (ModulesSystem.load_module conf true b F1.mods).2.1) ++ t2 := by
    rw [hFsplit, ht2, load_mods_step_conflicted]
  have hbFpre : b ∉ (List.foldl (load_mods_step conf) ⟨σmods, [], [], [], []⟩
      (ms₁ ++ b :: ms₂)).preloaded := by
    rw [hFsplit]
    intro hmem
    rcases load_fold_pre_bound conf ms₂ _ b hmem with h | h
    · rw [load_mods_step_preloaded_not_loaded conf F1 b hbF1] at h
      rcases load_fold_pre_bound conf ms₁ _ b h with h2 | h2
      · exact absurd h2 (List.not_mem_nil b)
      · exact hbms₁ h2
    · exact hbms₂ h
  have hFnodup : (List.foldl (load_mods_step conf) ⟨σmods, [], [], [], []⟩
      (ms₁ ++ b :: ms₂)).mods.Nodup :=
    load_fold_mods_nodup conf _ _ hstnd
  have hbP2 : b ∉ (unload_mods
      (List.foldl (load_mods_step conf) ⟨σmods, [], [], [], []⟩
        (ms₁ ++ b :: ms₂)).preloaded
      (ms₁ ++ b :: ms₂)
      (List.foldl (load_mods_step conf) ⟨σmods, [], [], [], []⟩
        (ms₁ ++ b :: ms₂)).mods).1 :=
    unload_mods_not_mem _ ms₁ ms₂ b _ hFnodup hbFpre
  have haFconf : a ∈ (List.foldl (load_mods_step conf) ⟨σmods, [], [], [], []⟩
      (ms₁ ++ b :: ms₂)).conflicted := by
    rw [hFconf]
    exact List.mem_append_left _ (List.mem_append_right _ hconfl)
  refine ⟨?_, ?_⟩
  · exact reload_fold_mem conf _ _ a haFconf hok
  · by_cases hbF : b ∈ (List.foldl (load_mods_step conf) ⟨σmods, [], [], [], []⟩
        (ms₁ ++ b :: ms₂)).conflicted
    · exfalso
      rw [hFconf] at hok hbF
      have hbD1 : b ∉ F1.conflicted ++
          (ModulesSystem.load_module conf true b F1.mods).2.1 := by
        intro h
        rcases List.mem_append.mp h with h1 | h1
        · exact hbF1conf h1
        · exact hbconfl_b h1
      have hbt2 : b ∈ t2 := by
        rcases List.mem_append.mp hbF with h1 | h1
        · exact absurd h1 hbD1
        · exact h1
      have hok2 : (((F1.conflicted ++
          (ModulesSystem.load_module conf true b F1.mods).2.1) ++ t2).foldl
            (reload_step conf)
            ((unload_mods
              (List.foldl (load_mods_step conf) ⟨σmods, [], [], [], []⟩
                (ms₁ ++ b :: ms₂)).preloaded
              (ms₁ ++ b :: ms₂)
              (List.foldl (load_mods_step conf) ⟨σmods, [], [], [], []⟩
                (ms₁ ++ b :: ms₂)).mods).1, [], true)).2.2 = true := hok
      rw [List.foldl_append] at hok2
      have hokD1 := reload_fold_ok conf t2 _ hok2
      have haD1 := reload_fold_mem conf
        (F1.conflicted ++ (ModulesSystem.load_module conf true b F1.mods).2.1)
        _ a (List.mem_append_right _ hconfl) hokD1
      have hbD1st := reload_fold_not_mem conf
        (F1.conflicted ++ (ModulesSystem.load_module conf true b F1.mods).2.1)
        ((unload_mods
          (List.foldl (load_mods_step conf) ⟨σmods, [], [], [], []⟩
            (ms₁ ++ b :: ms₂)).preloaded
          (ms₁ ++ b :: ms₂)
          (List.foldl (load_mods_step conf) ⟨σmods, [], [], [], []⟩
            (ms₁ ++ b :: ms₂)).mods).1, ([] : List ModReq), true) b hbP2 hbD1
      exact reload_fold_conflict_fails conf t2 _ a b haD1 hbD1st hba hbt2 hok2
    · exact reload_fold_not_mem conf _
        ((unload_mods
          (List.foldl (load_mods_step conf) ⟨σmods, [], [], [], []⟩
            (ms₁ ++ b :: ms₂)).preloaded
          (ms₁ ++ b :: ms₂)
          (List.foldl (load_mods_step conf) ⟨σmods, [], [], [], []⟩
            (ms₁ ++ b :: ms₂)).mods).1, ([] : List ModReq), true) b hbP2 hbF

/-- Claim C4, as stated, is false: if the conflicting module `b` is
declared twice, its second examination finds it loaded and records it as
preloaded, so the matching `unload()` skips it and `b` stays loaded even
though loading `b` force-unloaded `a` (and `a` was not an active preload).
Here `conf m x` makes `b` conflict with `a`, the ambient state has `a`
loaded, and after `load(); unload()` the module `b` is still loaded. -/
theorem C4_counterexample :
    ("a" ∈ (ModulesSystem.load_module (fun m x => m == "b" && x == "a") true "b"
      ["a"]).2.1) ∧
    ("a" ∉ ((Environment.make "e" ["b", "b"] []).load
      (fun m x => m == "b" && x == "a") (fun _ s => s)
      ⟨fun _ => none, ["a"]⟩).1.preloaded) ∧
    ("b" ∈ (((Environment.make "e" ["b", "b"] []).load
        (fun m x => m == "b" && x == "a") (fun _ s => s)
        ⟨fun _ => none, ["a"]⟩).1.unload (fun m x => m == "b" && x == "a")
      ((Environment.make "e" ["b", "b"] []).load
        (fun m x => m == "b" && x == "a") (fun _ s => s)
        ⟨fun _ => none, ["a"]⟩).2.1).2.1.mods) := by
  refine ⟨by decide, by decide, by decide⟩

/-- Claim C4, amended: for an `Environment` built from configuration with
pairwise-distinct declared modules `ms₁ ++ [b] ++ ms₂`, a duplicate-free
ambient loaded-module list not containing `b`, where the backend reports a
conflict list containing `a` when `load()` loads the declared module `b`,
`a` is not recorded as preloaded, and every conflicted-module reload of
the matching `unload()` succeeds: after `unload()` the module `a` is
loaded again and `b` is no longer loaded. -/
theorem C4_conflict_restore (conf : String → String → Bool)
    (expand : (String → Option String) → String → String)
    (n : String) (ms₁ ms₂ : List String) (b a : String)
    (vs : List (String × String)) (σ : Ambient)
    (hnd : (ms₁ ++ b :: ms₂).Nodup)
    (hstnd : σ.mods.Nodup)
    (hbσ : b ∉ σ.mods)
    (hconfl : a ∈ (ModulesSystem.load_module conf true b
      (List.foldl (load_mods_step conf) ⟨σ.mods, [], [], [], []⟩ ms₁).mods).2.1)
    (_hapre : a ∉ ((Environment.make n (ms₁ ++ b :: ms₂) vs).load
      conf expand σ).1.preloaded)
    (hok : (((Environment.make n (ms₁ ++ b :: ms₂) vs).load conf expand σ).1.unload
      conf ((Environment.make n (ms₁ ++ b :: ms₂) vs).load
        conf expand σ).2.1).2.2.2 = true) :
    a ∈ (((Environment.make n (ms₁ ++ b :: ms₂) vs).load conf expand σ).1.unload
      conf ((Environment.make n (ms₁ ++ b :: ms₂) vs).load
        conf expand σ).2.1).2.1.mods ∧
    b ∉ (((Environment.make n (ms₁ ++ b :: ms₂) vs).load conf expand σ).1.unload
      conf ((Environment.make n (ms₁ ++ b :: ms₂) vs).load
        conf expand σ).2.1).2.1.mods :=
  C4_core conf ms₁ ms₂ b a σ.mods hnd hstnd hbσ hconfl hok

/-- Witness for C4 at a concrete input: one declared module `b` whose load
force-unloads the ambient-loaded `a`; after the matching unload, `a` is
loaded and `b` is not. -/
theorem C4_witness :
    (["b"] : List String).Nodup ∧
    "b" ∉ (["a"] : List String) ∧
    "a" ∈ (ModulesSystem.load_module (fun m x => m == "b" && x == "a") true "b"
      (List.foldl (load_mods_step (fun m x => m == "b" && x == "a"))
        ⟨["a"], [], [], [], []⟩ []).mods).2.1 ∧
    "a" ∈ (((Environment.make "e" ["b"] []).load
        (fun m x => m == "b" && x == "a") (fun _ s => s)
        ⟨fun _ => none, ["a"]⟩).1.unload (fun m x => m == "b" && x == "a")
      ((Environment.make "e" ["b"] []).load
        (fun m x => m == "b" && x == "a") (fun _ s => s)
        ⟨fun _ => none, ["a"]⟩).2.1).2.1.mods ∧
    "b" ∉ (((Environment.make "e" ["b"] []).load
        (fun m x => m == "b" && x == "a") (fun _ s => s)
        ⟨fun _ => none, ["a"]⟩).1.unload (fun m x => m == "b" && x == "a")
      ((Environment.make "e" ["b"] []).load
        (fun m x => m == "b" && x == "a") (fun _ s => s)
        ⟨fun _ => none, ["a"]⟩).2.1).2.1.mods := by
  have h := C4_conflict_restore (fun m x => m == "b" && x == "a") (fun _ s => s)
    "e" [] [] "b" "a" [] ⟨fun _ => none, ["a"]⟩
    (by decide) (by decide) (by decide) (by decide) (by decide) (by decide)
  exact ⟨by decide, by decide, by decide, h.1, h.2⟩
